import Mathlib

/-!
# Shallow embedding of the vector-chunk library

This file embeds the core of the vector-chunk TypeScript package
(text segmentation, vector arithmetic, and the in-memory similarity
store) as executable Lean definitions and proves properties of them.

Modelling conventions:
* JS strings are `List Char`; `charCodeAt` is `Char.toNat`
  (identical on the ASCII inputs used in all concrete examples).
* JS numbers are `ℚ`.  `Math.sqrt` has no exact rational counterpart,
  so every definition that calls it is parameterised by a function
  `sqrtQ : ℚ → ℚ` standing for `Math.sqrt`; theorems hold for every
  choice of `sqrtQ` (plus explicitly stated facts such as
  `sqrtQ 0 = 0`, which `Math.sqrt` satisfies).
* Thrown JS exceptions are `Except String`.
* `Date.now()`-based ids and timestamp metadata are impure and carry
  no content; chunk ids are modelled by a deterministic placeholder
  and timestamp metadata is omitted.
-/

namespace VectorChunk

/-- JS strings, as lists of characters. -/
abbrev Str := List Char

/-- The character class of the JS regex `\s` (whitespace). -/
def isWsChar (c : Char) : Bool := c.isWhitespace

/-- Helper for `splitRuns`: walks the characters, keeping the current
piece (reversed) and whether the previous character belonged to a
separator run. -/
def splitRunsAux (p : Char → Bool) : List Char → Bool → List Char → List Str
  | [], _, acc => [acc.reverse]
  | c :: cs, lastSep, acc =>
    if p c then
      if lastSep then splitRunsAux p cs true []
      else acc.reverse :: splitRunsAux p cs true []
    else splitRunsAux p cs false (c :: acc)

/-- JS `s.split(re)` where `re` matches maximal nonempty runs of
characters satisfying `p` (such as `/\s+/` or `/[.!?]+/`): the pieces
between maximal separator runs, including an empty piece at either end
when the string starts or ends with a separator run, and `[""]` on the
empty string. -/
def splitRuns (p : Char → Bool) (l : Str) : List Str := splitRunsAux p l false []

/-- JS `s.split(/\s+/)`. -/
def splitWs (l : Str) : List Str := splitRuns isWsChar l

/-- The character class of the JS regex `[.!?]`. -/
def isSentEnd (c : Char) : Bool := c = '.' || c = '!' || c = '?'

/-- Helper for `runsOf`: current run is kept reversed. -/
def runsOfAux (p : Char → Bool) : List Char → List Char → List Str
  | [], run => if run.isEmpty then [] else [run.reverse]
  | c :: cs, run =>
    if p c then runsOfAux p cs (c :: run)
    else if run.isEmpty then runsOfAux p cs []
    else run.reverse :: runsOfAux p cs []

/-- JS `s.match(re)` with a global regex matching maximal nonempty runs
of characters satisfying `p`: the list of matched runs in order
(`null`, i.e. no match, is the empty list). -/
def runsOf (p : Char → Bool) (l : Str) : List Str := runsOfAux p l []

/-- JS `s.trim()`. -/
def trimStr (l : Str) : Str :=
  ((l.dropWhile isWsChar).reverse.dropWhile isWsChar).reverse

/-- JS `s.slice(a, b)` for `0 ≤ a ≤ b` (the only uses in this code). -/
def sliceStr (l : Str) (a b : ℕ) : Str := (l.drop a).take (b - a)

/-- JS `arr.slice(-n)` for `n > 0`: the last `n` elements. -/
def takeLast (l : List α) (n : ℕ) : List α := l.drop (l.length - n)

/-- JS `arr.join(sep)` for a one-character separator. -/
def joinChar (sep : Char) : List Str → Str
  | [] => []
  | [w] => w
  | w :: x :: ws => w ++ sep :: joinChar sep (x :: ws)

/-- JS `arr.join(' ')`. -/
def joinSp (ws : List Str) : Str := joinChar ' ' ws

/-- JS `arr.join('.')`. -/
def joinDot (ws : List Str) : Str := joinChar '.' ws

/-- The `Vector` record of `src/types/index.ts` (optional `id` and
`metadata` fields omitted: never read by the embedded code). -/
structure Vec where
  values : List ℚ
  dimension : ℕ
deriving DecidableEq, Repr

/-- `v.values[i]`, defaulting to `0` out of range (all embedded code
reads indices `i < dimension` of well-formed vectors, where the
default is irrelevant). -/
def vGet (v : Vec) (i : ℕ) : ℚ := v.values.getD i 0

namespace VectorMath

/-- The message of the error thrown by every `VectorMath` operation on
operands of different dimensions. -/
def dimMismatch : String := "Vectors must have the same dimension"

/-- `VectorMath.cosineSimilarity` (src/utils/vector-math.ts):
`(a·b)/(√normA·√normB)` with a zero-denominator guard, after a
dimension check. -/
def cosineSimilarity (sqrtQ : ℚ → ℚ) (a b : Vec) : Except String ℚ :=
  if a.dimension ≠ b.dimension then .error dimMismatch
  else
    let dot := ((List.range a.dimension).map (fun i => vGet a i * vGet b i)).sum
    let normA := ((List.range a.dimension).map (fun i => vGet a i * vGet a i)).sum
    let normB := ((List.range a.dimension).map (fun i => vGet b i * vGet b i)).sum
    let denominator := sqrtQ normA * sqrtQ normB
    .ok (if denominator = 0 then 0 else dot / denominator)

/-- `VectorMath.euclideanDistance`. -/
def euclideanDistance (sqrtQ : ℚ → ℚ) (a b : Vec) : Except String ℚ :=
  if a.dimension ≠ b.dimension then .error dimMismatch
  else
    .ok (sqrtQ ((List.range a.dimension).map
      (fun i => (vGet a i - vGet b i) * (vGet a i - vGet b i))).sum)

/-- `VectorMath.manhattanDistance`. -/
def manhattanDistance (a b : Vec) : Except String ℚ :=
  if a.dimension ≠ b.dimension then .error dimMismatch
  else .ok ((List.range a.dimension).map (fun i => |vGet a i - vGet b i|)).sum

/-- `VectorMath.dotProduct`. -/
def dotProduct (a b : Vec) : Except String ℚ :=
  if a.dimension ≠ b.dimension then .error dimMismatch
  else .ok ((List.range a.dimension).map (fun i => vGet a i * vGet b i)).sum

/-- `VectorMath.normalize`: divide by the Euclidean norm, returning an
all-zero vector when the norm is `0`. -/
def normalize (sqrtQ : ℚ → ℚ) (v : Vec) : Vec :=
  let norm := sqrtQ (v.values.map (fun x => x * x)).sum
  if norm = 0 then { v with values := List.replicate v.dimension 0 }
  else { v with values := v.values.map (fun x => x / norm) }

end VectorMath

/-- The sum of squares of the components of `v` that its own
`dimension` field exposes (zero iff the Euclidean norm is zero). -/
def normSq (v : Vec) : ℚ :=
  ((List.range v.dimension).map (fun i => vGet v i * vGet v i)).sum

/-- The `Chunk` record of `src/types/index.ts`.  The `metadata` map
(impure timestamps plus copies of `chunkIndex`/`length`/`wordCount`)
and the unused `documentId`/`chunkType` fields are omitted; no
embedded operation reads them. -/
structure Chunk where
  id : String
  content : Str
  vector : Vec
  chunkIndex : ℕ
  startPosition : ℕ
  endPosition : ℕ
deriving DecidableEq, Repr

/-- The four chunking strategies of `ChunkingConfig.strategy`. -/
inductive Strategy where
  | fixed | semantic | sliding | adaptive
deriving DecidableEq, Repr

/-- The fully-defaulted `ChunkingConfig` a chunker works with after its
constructor has merged the caller's overrides over the defaults. -/
structure ChunkingConfig where
  chunkSize : ℕ
  overlap : ℕ
  strategy : Strategy
  preserveParagraphs : Bool
  minChunkSize : ℕ
  maxChunkSize : ℕ
deriving DecidableEq, Repr

/-- A caller-supplied `Partial<ChunkingConfig>`: every field optional. -/
structure ChunkingConfigInit where
  chunkSize : Option ℕ := none
  overlap : Option ℕ := none
  strategy : Option Strategy := none
  preserveParagraphs : Option Bool := none
  minChunkSize : Option ℕ := none
  maxChunkSize : Option ℕ := none
deriving DecidableEq, Repr

/-- The constructor merge `{chunkSize: 512, overlap: 50, strategy:
'fixed', preserveParagraphs: true, minChunkSize: 100, maxChunkSize:
1024, ...config}` shared by TextChunker, StreamingChunker, LazyChunker
and ParallelChunker. -/
def mkChunkingConfig (c : ChunkingConfigInit) : ChunkingConfig where
  chunkSize := c.chunkSize.getD 512
  overlap := c.overlap.getD 50
  strategy := c.strategy.getD .fixed
  preserveParagraphs := c.preserveParagraphs.getD true
  minChunkSize := c.minChunkSize.getD 100
  maxChunkSize := c.maxChunkSize.getD 1024

/-- The `chunk_` prefix of generated chunk ids (the `Date.now()` part
is impure metadata and is omitted from the model). -/
def chunkIdPrefix : String := "chunk_"

/-- The character-frequency fingerprint shared (verbatim, up to the
`dimension` constant) by `TextChunker.generateSimpleVector`,
`StreamingChunker.generateSimpleVector`,
`LazyChunker.generateSimpleVector` and `VectorStore.textToVector`:
count character codes modulo `dimension`, then L2-normalize unless the
norm is zero. -/
def charFrequencyVector (sqrtQ : ℚ → ℚ) (dimension : ℕ) (content : Str) : Vec :=
  let values : List ℚ :=
    (List.range dimension).map
      (fun i => ((content.filter (fun ch => ch.toNat % dimension = i)).length : ℚ))
  let norm := sqrtQ (values.map (fun v => v * v)).sum
  let normalized := if 0 < norm then values.map (fun v => v / norm) else values
  { values := normalized, dimension := dimension }

namespace TextChunker

/-- `TextChunker.generateSimpleVector`: 128-dimensional fingerprint. -/
def generateSimpleVector (sqrtQ : ℚ → ℚ) (content : Str) : Vec :=
  charFrequencyVector sqrtQ 128 content

/-- `TextChunker.createChunk`: stamps the fingerprint vector and the
placeholder positions `startPosition = 0` (the source comment reads
"Would be calculated in real implementation") and
`endPosition = content.length`. -/
def createChunk (sqrtQ : ℚ → ℚ) (content : Str) (chunkIndex : ℕ) : Chunk where
  id := chunkIdPrefix ++ toString chunkIndex
  content := content
  vector := generateSimpleVector sqrtQ content
  chunkIndex := chunkIndex
  startPosition := 0
  endPosition := content.length

/-- The word loop of `TextChunker.fixedSizeChunking`: accumulate words
until the joined length reaches `chunkSize` (or the last word), emit
when the trimmed join meets `minChunkSize`, and seed the next chunk
with the overlap words when `overlap > 0` and more words remain. -/
def fixedLoop (sqrtQ : ℚ → ℚ) (cfg : ChunkingConfig) :
    List Str → List Str → ℕ → List Chunk
  | [], _, _ => []
  | [w], cur, idx =>
    let ct := trimStr (joinSp (cur ++ [w]))
    if cfg.minChunkSize ≤ ct.length then [createChunk sqrtQ ct idx] else []
  | w :: x :: ws, cur, idx =>
    let cur1 := cur ++ [w]
    if cfg.chunkSize ≤ (joinSp cur1).length then
      let ct := trimStr (joinSp cur1)
      let nextCur :=
        if 0 < cfg.overlap then takeLast cur1 (max 2 ((cfg.overlap + 2) / 3)) else []
      if cfg.minChunkSize ≤ ct.length then
        createChunk sqrtQ ct idx :: fixedLoop sqrtQ cfg (x :: ws) nextCur (idx + 1)
      else fixedLoop sqrtQ cfg (x :: ws) nextCur idx
    else fixedLoop sqrtQ cfg (x :: ws) cur1 idx

/-- `TextChunker.fixedSizeChunking`. -/
def fixedSizeChunking (sqrtQ : ℚ → ℚ) (cfg : ChunkingConfig) (text : Str) : List Chunk :=
  fixedLoop sqrtQ cfg (splitWs text) [] 0

/-- `TextChunker.splitIntoSentences`: split on `/[.!?]+/`, trim, drop
empties, then re-attach the i-th terminator run from
`text.match(/[.!?]+/g)` (misaligned when empties were dropped — a
quirk of the source, modelled as-is). -/
def splitIntoSentences (text : Str) : List Str :=
  let sentences := splitRuns isSentEnd text
  let termRuns := runsOf isSentEnd text
  ((sentences.map trimStr).filter (fun s => 0 < s.length)).mapIdx
    (fun i s => s ++ termRuns.getD i [])

/-- The sentence loop of `TextChunker.semanticChunking`. -/
def semanticLoop (sqrtQ : ℚ → ℚ) (cfg : ChunkingConfig) :
    List Str → Str → ℕ → List Chunk
  | [], cur, idx =>
    if cur ≠ [] ∧ cfg.minChunkSize ≤ cur.length then
      [createChunk sqrtQ (trimStr cur) idx]
    else []
  | s :: ss, cur, idx =>
    let potential := cur ++ (if cur = [] then [] else [' ']) ++ s
    if cfg.chunkSize < potential.length ∧ cur ≠ [] then
      if cfg.minChunkSize ≤ cur.length then
        createChunk sqrtQ (trimStr cur) idx :: semanticLoop sqrtQ cfg ss s (idx + 1)
      else semanticLoop sqrtQ cfg ss s idx
    else semanticLoop sqrtQ cfg ss potential idx

/-- `TextChunker.semanticChunking`. -/
def semanticChunking (sqrtQ : ℚ → ℚ) (cfg : ChunkingConfig) (text : Str) : List Chunk :=
  semanticLoop sqrtQ cfg (splitIntoSentences text) [] 0

/-- The window loop of `TextChunker.slidingWindowChunking` over the
list of window start offsets. -/
def slidingLoop (sqrtQ : ℚ → ℚ) (cfg : ChunkingConfig) (text : Str) :
    List ℕ → ℕ → List Chunk
  | [], _ => []
  | i :: is, idx =>
    let ct := trimStr (sliceStr text i (i + cfg.chunkSize))
    if cfg.minChunkSize ≤ ct.length then
      createChunk sqrtQ ct idx :: slidingLoop sqrtQ cfg text is (idx + 1)
    else slidingLoop sqrtQ cfg text is idx

/-- `TextChunker.slidingWindowChunking`: windows start at multiples of
`step = chunkSize - overlap` below `text.length`.  (When
`overlap ≥ chunkSize` the JS `for` loop never advances and diverges;
that configuration violates the documented `overlap < chunkSize`
invariant and is modelled as producing no windows.) -/
def slidingWindowChunking (sqrtQ : ℚ → ℚ) (cfg : ChunkingConfig) (text : Str) : List Chunk :=
  let step := cfg.chunkSize - cfg.overlap
  let starts :=
    if step = 0 then []
    else (List.range ((text.length + step - 1) / step)).map (· * step)
  slidingLoop sqrtQ cfg text starts 0

/-- Match of the paragraph separator regex `/\n\s*\n/` at a position
whose character is `c` with `rest` following: returns how many
characters of `rest` the greedy match consumes (the `\s*\n` part), or
`none` when the regex does not match here. -/
def matchParaSep (c : Char) (rest : Str) : Option ℕ :=
  if c = '\n' then
    let r := rest.takeWhile isWsChar
    (((List.range r.length).filter (fun j => r.getD j ' ' = '\n')).max?).map (· + 1)
  else none

/-- Scanner for JS `text.split(/\n\s*\n/)`: leftmost, non-overlapping,
greedy matches separate the pieces. -/
def splitParasAux : Str → Str → List Str
  | [], piece => [piece.reverse]
  | c :: rest, piece =>
    match matchParaSep c rest with
    | some n => piece.reverse :: splitParasAux (rest.drop n) []
    | none => splitParasAux rest (c :: piece)
termination_by l _ => l.length
decreasing_by
  · simp only [List.length_cons, List.length_drop]; omega
  · simp only [List.length_cons]; omega

/-- JS `text.split(/\n\s*\n/)`. -/
def splitParas (l : Str) : List Str := splitParasAux l []

/-- The paragraph loop of `TextChunker.adaptiveChunking` (note: unlike
the other strategies, the accumulated chunk is emitted untrimmed). -/
def adaptiveLoop (sqrtQ : ℚ → ℚ) (cfg : ChunkingConfig) :
    List Str → Str → ℕ → List Chunk
  | [], cur, idx =>
    if cur ≠ [] ∧ cfg.minChunkSize ≤ cur.length then [createChunk sqrtQ cur idx]
    else []
  | p :: ps, cur, idx =>
    let t := trimStr p
    if t = [] then adaptiveLoop sqrtQ cfg ps cur idx
    else if cur.length + t.length ≤ cfg.chunkSize then
      adaptiveLoop sqrtQ cfg ps (cur ++ (if cur = [] then [] else ['\n', '\n']) ++ t) idx
    else if cur ≠ [] ∧ cfg.minChunkSize ≤ cur.length then
      createChunk sqrtQ cur idx :: adaptiveLoop sqrtQ cfg ps t (idx + 1)
    else adaptiveLoop sqrtQ cfg ps t idx

/-- `TextChunker.adaptiveChunking`. -/
def adaptiveChunking (sqrtQ : ℚ → ℚ) (cfg : ChunkingConfig) (text : Str) : List Chunk :=
  adaptiveLoop sqrtQ cfg (splitParas text) [] 0

/-- `TextChunker.chunkText`: empty/whitespace-only guard, the
short-text single-chunk path, then dispatch on the strategy (the TS
`default` branch duplicates `fixed` and is unreachable over the closed
strategy type). -/
def chunkText (sqrtQ : ℚ → ℚ) (cfg : ChunkingConfig) (text : Str) : List Chunk :=
  if trimStr text = [] then []
  else if text.length ≤ cfg.chunkSize then
    if cfg.minChunkSize ≤ text.length then [createChunk sqrtQ (trimStr text) 0] else []
  else
    match cfg.strategy with
    | .fixed => fixedSizeChunking sqrtQ cfg text
    | .semantic => semanticChunking sqrtQ cfg text
    | .sliding => slidingWindowChunking sqrtQ cfg text
    | .adaptive => adaptiveChunking sqrtQ cfg text

end TextChunker

namespace LazyChunker

/-- `LazyChunker.generateSimpleVector`: 64-dimensional fingerprint. -/
def generateSimpleVector (sqrtQ : ℚ → ℚ) (content : Str) : Vec :=
  charFrequencyVector sqrtQ 64 content

/-- `LazyChunker.createChunkIndex` (phase 1): run the full
`TextChunker.chunkText` on the text and keep only each chunk's
`(startPosition, endPosition)` pair. -/
def createChunkIndex (sqrtQ : ℚ → ℚ) (cfg : ChunkingConfig) (text : Str) : List (ℕ × ℕ) :=
  (TextChunker.chunkText sqrtQ cfg text).map (fun c => (c.startPosition, c.endPosition))

/-- `LazyChunker.processChunkAtIndex` (phase 2): materialize the chunk
at `index` as `text.slice(start, end)` with a fresh 64-dimensional
fingerprint vector (`none` when the index is out of range; the caller
`getChunk`-guards it). -/
def processChunkAtIndex (sqrtQ : ℚ → ℚ) (cfg : ChunkingConfig) (text : Str)
    (index : ℕ) : Option Chunk :=
  ((createChunkIndex sqrtQ cfg text).get? index).map (fun pos =>
    let chunkText := sliceStr text pos.1 pos.2
    { id := chunkIdPrefix ++ toString index
      content := chunkText
      vector := generateSimpleVector sqrtQ chunkText
      chunkIndex := index
      startPosition := pos.1
      endPosition := pos.2 })

/-- `LazyChunker.getChunk`: index-range guard, then the chunk the
proxy materializes via `processChunkAtIndex` (memoization returns this
same value on later accesses). -/
def getChunk (sqrtQ : ℚ → ℚ) (cfg : ChunkingConfig) (text : Str) (index : ℕ) :
    Option Chunk :=
  processChunkAtIndex sqrtQ cfg text index

end LazyChunker

namespace StreamingChunker

/-- `StreamingChunker.generateSimpleVector`: 64-dimensional
fingerprint ("Smaller dimension for streaming"). -/
def generateSimpleVector (sqrtQ : ℚ → ℚ) (content : Str) : Vec :=
  charFrequencyVector sqrtQ 64 content

/-- `StreamingChunker.createChunk`. -/
def createChunk (sqrtQ : ℚ → ℚ) (content : Str) (chunkIndex : ℕ) : Chunk where
  id := chunkIdPrefix ++ toString chunkIndex
  content := content
  vector := generateSimpleVector sqrtQ content
  chunkIndex := chunkIndex
  startPosition := 0
  endPosition := content.length

/-- The word-accumulation scan of `StreamingChunker.extractFixedChunk`:
the first `i` with `words.take (i+1)` joining to at least `chunkSize`
characters, or `words.length` when the loop runs off the end. -/
def fixedScanIdx (cfg : ChunkingConfig) (words : List Str) : ℕ :=
  match (List.range words.length).find?
      (fun i => cfg.chunkSize ≤ (joinSp (words.take (i + 1))).length) with
  | some i => i
  | none => words.length

/-- `StreamingChunker.extractFixedChunk`: returns the extracted chunk
text and the new buffer. -/
def extractFixedChunk (cfg : ChunkingConfig) (buffer : Str) : Str × Str :=
  let words := splitWs buffer
  let i := fixedScanIdx cfg words
  let currentChunk := words.take (i + 1)
  let chunkText := trimStr (joinSp currentChunk)
  let buffer1 :=
    if 0 < cfg.overlap ∧ i + 1 < words.length then
      joinSp (takeLast currentChunk (max 2 ((cfg.overlap + 2) / 3))) ++ [' '] ++
        joinSp (words.drop (i + 1))
    else joinSp (words.drop (i + 1))
  (chunkText, buffer1)

/-- The sentence loop of `StreamingChunker.extractSemanticChunk`:
accumulates sentences into `cur` until the next one would overflow
`chunkSize`, returning the accumulated text and the unconsumed
sentences. -/
def semanticScan (cfg : ChunkingConfig) : List Str → Str → Str × List Str
  | [], cur => (cur, [])
  | s :: ss, cur =>
    let potential := cur ++ (if cur = [] then [] else [' ']) ++ s
    if cfg.chunkSize < potential.length ∧ cur ≠ [] then (cur, s :: ss)
    else semanticScan cfg ss potential

/-- `StreamingChunker.extractSemanticChunk`: note the buffer is rebuilt
as the leftover sentences joined with '.' plus a trailing '.'. -/
def extractSemanticChunk (cfg : ChunkingConfig) (buffer : Str) : Str × Str :=
  let sentences := splitRuns isSentEnd buffer
  let (cur, rest) := semanticScan cfg sentences []
  (trimStr cur, joinDot rest ++ ['.'])

/-- `StreamingChunker.extractSlidingChunk`. -/
def extractSlidingChunk (cfg : ChunkingConfig) (buffer : Str) : Str × Str :=
  (trimStr (buffer.take cfg.chunkSize), buffer.drop (cfg.chunkSize - cfg.overlap))

/-- `StreamingChunker.extractChunk`: strategy dispatch (the `default`
branch duplicates `fixed`; `adaptive` falls into it). -/
def extractChunk (cfg : ChunkingConfig) (buffer : Str) : Str × Str :=
  match cfg.strategy with
  | .fixed => extractFixedChunk cfg buffer
  | .semantic => extractSemanticChunk cfg buffer
  | .sliding => extractSlidingChunk cfg buffer
  | .adaptive => extractFixedChunk cfg buffer

/-- `StreamingChunker.processBuffer(isFinal = true)` — the end-of-input
flush loop `while (buffer.length >= chunkSize || buffer.length > 0)`
(for `chunkSize ≥ 1` that condition is exactly `buffer.length > 0`,
which is what is modelled), with an explicit fuel bound: `some chunks`
when the loop finishes within `fuel` iterations, `none` otherwise.  A
JS run that never terminates is exactly one the model maps to `none`
for every fuel. -/
def processBufferFinal (sqrtQ : ℚ → ℚ) (cfg : ChunkingConfig) :
    ℕ → Str → ℕ → Option (List Chunk)
  | 0, _, _ => none
  | fuel + 1, buffer, idx =>
    if buffer.length = 0 then some []
    else
      let (chunkText, buffer1) := extractChunk cfg buffer
      if chunkText ≠ [] ∧ cfg.minChunkSize ≤ chunkText.length then
        (processBufferFinal sqrtQ cfg fuel buffer1 (idx + 1)).map
          (fun rest => createChunk sqrtQ chunkText idx :: rest)
      else processBufferFinal sqrtQ cfg fuel buffer1 idx

end StreamingChunker

/-- The configured similarity metric of `VectorStoreConfig` (the
domain of the `switch` in `VectorStore.calculateSimilarity`). -/
inductive Metric where
  | cosine | euclidean | manhattan | dot
deriving DecidableEq, Repr

/-- The fully-defaulted `VectorStoreConfig` after the `VectorStore`
constructor merge (`indexType` is always 'brute-force' and carries no
information). -/
structure VectorStoreConfig where
  similarityMetric : Metric
  maxResults : ℕ
  threshold : ℚ
deriving DecidableEq, Repr

/-- A caller-supplied `Partial<VectorStoreConfig>`. -/
structure VectorStoreConfigInit where
  similarityMetric : Option Metric := none
  maxResults : Option ℕ := none
  threshold : Option ℚ := none
deriving DecidableEq, Repr

/-- The `VectorStore` constructor merge `{similarityMetric: 'cosine',
indexType: 'brute-force', maxResults: 10, threshold: 0.0, ...config}`. -/
def mkVectorStoreConfig (c : VectorStoreConfigInit) : VectorStoreConfig where
  similarityMetric := c.similarityMetric.getD .cosine
  maxResults := c.maxResults.getD 10
  threshold := c.threshold.getD 0

/-- The `SearchResult` record.  `src/types/index.ts` declares a
mandatory `relevance: 'high' | 'medium' | 'low'` field, but the object
literal `VectorStore.search` actually pushes carries no such property
(reading it yields `undefined`), so the field is modelled as an
`Option`. -/
structure SearchResult where
  chunk : Chunk
  score : ℚ
  distance : ℚ
  relevance : Option String
deriving DecidableEq, Repr

/-- The `VectorStore` state relevant to search: the insertion-ordered
chunk list plus its configuration (the id→chunk map and vector cache
are redundant indexes over the same chunks). -/
structure VectorStore where
  chunks : List Chunk
  config : VectorStoreConfig
deriving DecidableEq, Repr

namespace VectorStore

/-- `VectorStore.calculateSimilarity`: the metric switch. -/
def calculateSimilarity (sqrtQ : ℚ → ℚ) (cfg : VectorStoreConfig) (a b : Vec) :
    Except String ℚ :=
  match cfg.similarityMetric with
  | .cosine => VectorMath.cosineSimilarity sqrtQ a b
  | .euclidean => (VectorMath.euclideanDistance sqrtQ a b).map (fun d => 1 / (1 + d))
  | .manhattan => (VectorMath.manhattanDistance a b).map (fun d => 1 / (1 + d))
  | .dot => VectorMath.dotProduct a b

/-- The scoring loop of `VectorStore.search`: for each chunk compute
the score (a thrown dimension mismatch aborts the whole call) and push
`{chunk, score, distance: 1 - score}` — with no `relevance` — when
`score ≥ threshold`. -/
def collectResults (sqrtQ : ℚ → ℚ) (cfg : VectorStoreConfig) (query : Vec) :
    List Chunk → Except String (List SearchResult)
  | [] => .ok []
  | c :: cs => do
    let score ← calculateSimilarity sqrtQ cfg query c.vector
    let rest ← collectResults sqrtQ cfg query cs
    .ok (if cfg.threshold ≤ score then
      { chunk := c, score := score, distance := 1 - score, relevance := none } :: rest
    else rest)

/-- The descending-score order `search` sorts by (`(a, b) => b.score -
a.score`): ties allowed. -/
def scoreGe (a b : SearchResult) : Prop := b.score ≤ a.score

instance : DecidableRel scoreGe := fun a b => inferInstanceAs (Decidable (b.score ≤ a.score))

instance : IsTotal SearchResult scoreGe := ⟨fun a b => le_total b.score a.score⟩

instance : IsTrans SearchResult scoreGe := ⟨fun _ _ _ h1 h2 => le_trans h2 h1⟩

/-- `VectorStore.search` (default `options = {}`, so the query is used
un-normalized): `k = topK || maxResults` (JS `||`: `0` falls back to
`maxResults`), empty-store early return, score every chunk, keep
scores ≥ threshold, sort descending, take the first `k`. -/
def search (sqrtQ : ℚ → ℚ) (store : VectorStore) (queryVector : Vec) (topK : ℕ) :
    Except String (List SearchResult) :=
  let k := if topK = 0 then store.config.maxResults else topK
  if store.chunks.isEmpty then .ok []
  else do
    let results ← collectResults sqrtQ store.config queryVector store.chunks
    .ok ((results.insertionSort scoreGe).take k)

/-- `VectorStore.textToVector`: the 128-dimensional query fingerprint. -/
def textToVector (sqrtQ : ℚ → ℚ) (text : Str) : Vec :=
  charFrequencyVector sqrtQ 128 text

/-- `VectorStore.searchByText`. -/
def searchByText (sqrtQ : ℚ → ℚ) (store : VectorStore) (text : Str) (topK : ℕ) :
    Except String (List SearchResult) :=
  search sqrtQ store (textToVector sqrtQ text) topK

end VectorStore

instance {ε α : Type _} [DecidableEq ε] [DecidableEq α] : DecidableEq (Except ε α) :=
  fun x y =>
    match x, y with
    | .ok a, .ok b =>
      if h : a = b then .isTrue (by subst h; rfl)
      else .isFalse (fun hc => by cases hc; exact h rfl)
    | .ok _, .error _ => .isFalse (fun hc => by cases hc)
    | .error _, .ok _ => .isFalse (fun hc => by cases hc)
    | .error e, .error f =>
      if h : e = f then .isTrue (by subst h; rfl)
      else .isFalse (fun hc => by cases hc; exact h rfl)

namespace ParallelChunker

/-- The observable outcome of one worker's segment task, abstracting
the `worker_threads` scheduling: either the worker-side try/catch ran
`TextChunker.chunkText` to completion (`completed .ok`) or caught the
exception it threw (`completed .error`), or the worker itself crashed
— an `error` event or a nonzero exit before posting (`crashed`). -/
inductive TaskOutcome where
  | completed (r : Except String (List Chunk))
  | crashed (msg : String)
deriving DecidableEq, Repr

/-- The worker-thread branch of parallel-chunker.ts: `try {
parentPort.postMessage(chunker.chunkText(...)) } catch (error) {
parentPort.postMessage([]) }` — the message a completed worker posts. -/
def workerPost : Except String (List Chunk) → List Chunk
  | .ok chunks => chunks
  | .error _ => []

/-- `ParallelChunker.processChunkInWorker`: resolves with whatever a
completed worker posts; rejects only when the worker errors or exits
abnormally (nonzero code) without posting. -/
def processChunkInWorker : TaskOutcome → Except String (List Chunk)
  | .completed r => .ok (workerPost r)
  | .crashed msg => .error msg

/-- `ParallelChunker.mergeChunkResults`: concatenate in segment order,
renumber `chunkIndex` globally from 0, and (no-op) sort by the fresh
indexes. -/
def mergeChunkResults (workerResults : List (List Chunk)) : List Chunk :=
  let allChunks := workerResults.flatten.mapIdx
    (fun i c => { c with chunkIndex := i })
  allChunks.insertionSort (fun a b => a.chunkIndex ≤ b.chunkIndex)

/-- `Promise.all(workerPromises)`: settles each segment promise in
order, rejecting the whole join on the first rejection. -/
def promiseAll : List TaskOutcome → Except String (List (List Chunk))
  | [] => .ok []
  | o :: os => do
    let r ← processChunkInWorker o
    let rest ← promiseAll os
    .ok (r :: rest)

/-- The join of `ParallelChunker.chunkTextParallel` as a function of
the per-segment task outcomes: `Promise.all` rejects iff some promise
rejects, else the posted chunk lists are merged by
`mergeChunkResults`. -/
def joinWorkers (outcomes : List TaskOutcome) : Except String (List Chunk) := do
  let results ← promiseAll outcomes
  .ok (mergeChunkResults results)

/-- What a segment task contributes to a successful join: the posted
chunks of a completed worker (empty when its `chunkText` threw), and
nothing for a crashed worker (the join fails instead). -/
def postedOf : TaskOutcome → List Chunk
  | .completed r => workerPost r
  | .crashed _ => []

end ParallelChunker

/-! ## Concrete fixtures used by counterexamples and witnesses -/

/-- A concrete stand-in for `Math.sqrt` (only ever applied where the
result is irrelevant or where `sqrtQ 0 = 0` is all that matters). -/
def sqrtId : ℚ → ℚ := fun q => q

/-- A 1-dimensional query vector. -/
def qvec1 : Vec := ⟨[0], 1⟩

/-- A store config with the manhattan metric (score `1/(1+d)` is exact
rational arithmetic) and the default `maxResults`/`threshold`. -/
def mCfg : VectorStoreConfig := ⟨.manhattan, 10, 0⟩

/-- A chunk whose vector ties with `chunkM2` against `qvec1`. -/
def chunkM1 : Chunk := ⟨"c1", ['a'], ⟨[0], 1⟩, 0, 0, 1⟩

/-- A second chunk with the same vector as `chunkM1`. -/
def chunkM2 : Chunk := ⟨"c2", ['b'], ⟨[0], 1⟩, 1, 0, 1⟩

/-- A store with two equal-scoring chunks. -/
def storeM : VectorStore := ⟨[chunkM1, chunkM2], mCfg⟩

/-- A store with a single chunk. -/
def store1 : VectorStore := ⟨[chunkM1], mCfg⟩

/-- Fixed strategy, `chunkSize = 10`, `overlap = 0`, `minChunkSize = 1`. -/
def cfg10 : ChunkingConfig :=
  mkChunkingConfig
    { chunkSize := some 10, overlap := some 0, strategy := some .fixed,
      minChunkSize := some 1 }

/-- A 19-character text that `cfg10` splits into two chunks. -/
def textABCD : Str := ("aaaa bbbb cccc dddd").toList

/-- Fixed strategy, `chunkSize = 50`, `overlap = 0`, `minChunkSize = 1`. -/
def cfg50 : ChunkingConfig :=
  mkChunkingConfig
    { chunkSize := some 50, overlap := some 0, strategy := some .fixed,
      minChunkSize := some 1 }

/-- A 10-character word. -/
def w10 : Str := List.replicate 10 'a'

/-- A 200-character text: eighteen 10-character words and a final
2-character word, single-space separated. -/
def text200 : Str := joinSp (List.replicate 18 w10) ++ [' '] ++ ['x', 'y']

/-- The streaming chunker's config for the semantic strategy, all
other fields defaulted. -/
def semCfgS : ChunkingConfig := mkChunkingConfig { strategy := some .semantic }

/-- The length of the longest `\s+`-delimited word of `text`. -/
def maxWordLen (text : Str) : ℕ := ((splitWs text).map List.length).foldr max 0

/-- A chunk some worker produced successfully. -/
def chunkP : Chunk := ⟨"w1", ['a'], ⟨[1], 1⟩, 0, 0, 1⟩

/-- The message of a hypothetical error thrown inside a worker. -/
def boomMsg : String := "boom"

/-- A chunk carrying a streaming-produced (64-dimensional) fingerprint
vector. -/
def chunk64 : Chunk :=
  ⟨"s1", ['a'], StreamingChunker.generateSimpleVector sqrtId ['a'], 0, 0, 1⟩

/-- A cosine-metric store holding `chunk64`. -/
def store64 : VectorStore := ⟨[chunk64], ⟨.cosine, 10, 0⟩⟩

end VectorChunk

namespace VectorChunk

/-! ## Helper lemmas -/

/-- Trimming never lengthens a string. -/
theorem trimStr_length_le (l : Str) : (trimStr l).length ≤ l.length := by
  unfold trimStr
  calc ((l.dropWhile isWsChar).reverse.dropWhile isWsChar).reverse.length
      = ((l.dropWhile isWsChar).reverse.dropWhile isWsChar).length := by
        rw [List.length_reverse]
    _ ≤ (l.dropWhile isWsChar).reverse.length :=
        List.Sublist.length_le (List.dropWhile_sublist _)
    _ = (l.dropWhile isWsChar).length := by rw [List.length_reverse]
    _ ≤ l.length := List.Sublist.length_le (List.dropWhile_sublist _)

/-- Appending one more word to a nonempty join adds the separator and
the word. -/
theorem joinChar_append_singleton (sep : Char) (w : Str) :
    ∀ ws : List Str, ws ≠ [] →
      joinChar sep (ws ++ [w]) = joinChar sep ws ++ sep :: w
  | [], h => absurd rfl h
  | [a], _ => rfl
  | a :: b :: ws, _ => by
    have ih := joinChar_append_singleton sep w (b :: ws) (by simp)
    simp only [List.cons_append, joinChar, List.append_eq]
    rw [List.cons_append] at ih
    rw [ih]
    simp [List.append_assoc]

/-- Length bound for the join after pushing one word, given the
pre-push join was below `n` (or empty). -/
theorem joinSp_push_length_le (n M : ℕ) (cur : List Str) (w : Str)
    (hcur : cur = [] ∨ (joinSp cur).length < n) (hw : w.length ≤ M) :
    (joinSp (cur ++ [w])).length ≤ n + M := by
  rcases hcur with rfl | hlt
  · simpa [joinSp, joinChar] using le_trans hw (Nat.le_add_left M n)
  · rcases eq_or_ne cur [] with rfl | hne
    · simpa [joinSp, joinChar] using le_trans hw (Nat.le_add_left M n)
    · rw [joinSp, joinChar_append_singleton _ _ _ hne]
      simp only [List.length_append, List.length_cons]
      have : (joinChar ' ' cur).length + 1 ≤ n := hlt
      omega

/-- Every word of `text` is at most `maxWordLen text` long. -/
theorem length_le_maxWordLen {text : Str} {w : Str} (hw : w ∈ splitWs text) :
    w.length ≤ maxWordLen text := by
  unfold maxWordLen
  have : w.length ∈ (splitWs text).map List.length := List.mem_map_of_mem _ hw
  generalize (splitWs text).map List.length = ls at this
  induction ls with
  | nil => cases this
  | cons a ls ih =>
    simp only [List.foldr_cons]
    rcases List.mem_cons.1 this with rfl | hmem
    · exact le_max_left _ _
    · exact le_trans (ih hmem) (le_max_right _ _)

/-- What `collectResults` guarantees about every result it returns:
the threshold filter, `distance = 1 - score`, the missing `relevance`,
and a source chunk whose configured-metric score it carries. -/
theorem collectResults_ok_mem (sqrtQ : ℚ → ℚ) (cfg : VectorStoreConfig) (q : Vec) :
    ∀ (cs : List Chunk) (res : List SearchResult),
      VectorStore.collectResults sqrtQ cfg q cs = .ok res →
      ∀ x ∈ res, cfg.threshold ≤ x.score ∧ x.distance = 1 - x.score ∧
        x.relevance = none ∧
        ∃ c ∈ cs, x.chunk = c ∧
          VectorStore.calculateSimilarity sqrtQ cfg q c.vector = .ok x.score := by
  intro cs
  induction cs with
  | nil =>
    intro res h x hx
    simp only [VectorStore.collectResults] at h
    cases h
    cases hx
  | cons c cs ih =>
    intro res h x hx
    simp only [VectorStore.collectResults, Bind.bind, Except.bind] at h
    cases hcalc : VectorStore.calculateSimilarity sqrtQ cfg q c.vector with
    | error e => rw [hcalc] at h; cases h
    | ok s =>
      rw [hcalc] at h
      cases hrest : VectorStore.collectResults sqrtQ cfg q cs with
      | error e => rw [hrest] at h; cases h
      | ok rest =>
        rw [hrest] at h
        cases h
        by_cases hthr : cfg.threshold ≤ s
        · rw [if_pos hthr] at hx
          rcases List.mem_cons.1 hx with rfl | hmem
          · exact ⟨hthr, rfl, rfl, c, List.mem_cons_self .., rfl, hcalc⟩
          · obtain ⟨h1, h2, h3, c2, hc2, h4, h5⟩ := ih rest hrest x hmem
            exact ⟨h1, h2, h3, c2, List.mem_cons_of_mem _ hc2, h4, h5⟩
        · rw [if_neg hthr] at hx
          obtain ⟨h1, h2, h3, c2, hc2, h4, h5⟩ := ih rest hrest x hx
          exact ⟨h1, h2, h3, c2, List.mem_cons_of_mem _ hc2, h4, h5⟩

/-- If some chunk passes the threshold, the collected result list is
nonempty. -/
theorem collectResults_ok_ne_nil (sqrtQ : ℚ → ℚ) (cfg : VectorStoreConfig) (q : Vec)
    {c : Chunk} {s : ℚ} :
    ∀ (cs : List Chunk) (res : List SearchResult),
      VectorStore.collectResults sqrtQ cfg q cs = .ok res →
      c ∈ cs →
      VectorStore.calculateSimilarity sqrtQ cfg q c.vector = .ok s →
      cfg.threshold ≤ s → res ≠ [] := by
  intro cs
  induction cs with
  | nil => intro res _ hmem; cases hmem
  | cons c0 cs ih =>
    intro res h hmem hcalc hthr
    simp only [VectorStore.collectResults, Bind.bind, Except.bind] at h
    cases hcalc0 : VectorStore.calculateSimilarity sqrtQ cfg q c0.vector with
    | error e => rw [hcalc0] at h; cases h
    | ok s0 =>
      rw [hcalc0] at h
      cases hrest : VectorStore.collectResults sqrtQ cfg q cs with
      | error e => rw [hrest] at h; cases h
      | ok rest =>
        rw [hrest] at h
        cases h
        rcases List.mem_cons.1 hmem with rfl | hmem2
        · rw [hcalc0] at hcalc
          cases hcalc
          rw [if_pos hthr]
          simp
        · have : rest ≠ [] := ih rest hrest hmem2 hcalc hthr
          by_cases hthr0 : cfg.threshold ≤ s0
          · rw [if_pos hthr0]; simp
          · rw [if_neg hthr0]; exact this

end VectorChunk

namespace VectorChunk

/-- C8: for equal-dimension vectors, `cosineSimilarity` returns `0`
(raising no error) whenever either operand has Euclidean norm 0 — the
zero-denominator branch is guarded — and on a dimension mismatch it
fails with the dimension-mismatch error.  Stated for every model
`sqrtQ` of `Math.sqrt` with `sqrtQ 0 = 0` (true of `Math.sqrt`). -/
theorem cosineSimilarity_zeroNorm_ok_and_mismatch_error
    (sqrtQ : ℚ → ℚ) (h0 : sqrtQ 0 = 0) (a b : Vec) :
    (a.dimension = b.dimension → (normSq a = 0 ∨ normSq b = 0) →
      VectorMath.cosineSimilarity sqrtQ a b = .ok 0) ∧
    (a.dimension ≠ b.dimension →
      VectorMath.cosineSimilarity sqrtQ a b = .error VectorMath.dimMismatch) := by
  constructor
  · intro hdim hz
    unfold VectorMath.cosineSimilarity
    rw [if_neg (by simp [hdim])]
    have hden :
        sqrtQ ((List.range a.dimension).map (fun i => vGet a i * vGet a i)).sum *
          sqrtQ ((List.range a.dimension).map (fun i => vGet b i * vGet b i)).sum = 0 := by
      rcases hz with hz | hz
      · have : ((List.range a.dimension).map (fun i => vGet a i * vGet a i)).sum = 0 := hz
        rw [this, h0, zero_mul]
      · have : ((List.range a.dimension).map (fun i => vGet b i * vGet b i)).sum = 0 := by
          rw [hdim]; exact hz
        rw [this, h0, mul_zero]
    simp [hden]
  · intro hdim
    unfold VectorMath.cosineSimilarity
    rw [if_pos (by simpa using hdim)]

/-- Witness for `cosineSimilarity_zeroNorm_ok_and_mismatch_error` at
concrete inputs: the zero vector against `[3]`, and a 1-dimensional
against a 2-dimensional vector. -/
theorem cosineSimilarity_zeroNorm_witness :
    VectorMath.cosineSimilarity (fun q => q) ⟨[0], 1⟩ ⟨[3], 1⟩ = .ok 0 ∧
    VectorMath.cosineSimilarity (fun q => q) ⟨[0], 1⟩ ⟨[1, 1], 2⟩ =
      .error VectorMath.dimMismatch :=
  ⟨(cosineSimilarity_zeroNorm_ok_and_mismatch_error (fun q => q) rfl ⟨[0], 1⟩ ⟨[3], 1⟩).1
      rfl (Or.inl (by simp [normSq, vGet])),
   (cosineSimilarity_zeroNorm_ok_and_mismatch_error (fun q => q) rfl ⟨[0], 1⟩ ⟨[1, 1], 2⟩).2
      (by decide)⟩

end VectorChunk

namespace VectorChunk

/-- C1 counterexample: `search` is not sorted *strictly* descending.
`storeM` holds two chunks with identical vectors; both score `1` under
the manhattan metric against `qvec1`, and both are returned — equal
adjacent scores, so the result is not strictly descending. -/
theorem search_strict_descending_cex :
    VectorStore.search sqrtId storeM qvec1 5 =
      .ok [⟨chunkM1, 1, 0, none⟩, ⟨chunkM2, 1, 0, none⟩] ∧
    ¬ List.Chain' (fun a b : SearchResult => b.score < a.score)
        [⟨chunkM1, 1, 0, none⟩, ⟨chunkM2, 1, 0, none⟩] := by
  constructor
  · norm_num [VectorStore.search, storeM, mCfg, chunkM1, chunkM2, qvec1, sqrtId,
      VectorStore.collectResults, VectorStore.calculateSimilarity,
      VectorMath.manhattanDistance, vGet, VectorStore.scoreGe,
      Bind.bind, Except.bind, Except.map, List.range_succ]
  · simp only [List.chain'_cons, List.chain'_singleton, and_true]
    norm_num

/-- C1 (corrected): for every store state, query, `topK ≥ 1` and
configuration, a successful `search` returns a list sorted in
non-increasing score order (ties between equal scores are allowed —
not strictly descending), of length at most `topK`, in which every
result's score is at least the configured threshold and is exactly the
configured metric (cosine; 1/(1+euclidean); 1/(1+manhattan); dot)
applied to the query and one of the stored chunks' vectors. -/
theorem search_sorted_topK_threshold (sqrtQ : ℚ → ℚ) (store : VectorStore)
    (q : Vec) (topK : ℕ) (res : List SearchResult) (htop : 0 < topK)
    (h : VectorStore.search sqrtQ store q topK = .ok res) :
    List.Sorted VectorStore.scoreGe res ∧ res.length ≤ topK ∧
    ∀ x ∈ res, store.config.threshold ≤ x.score ∧
      ∃ c ∈ store.chunks, x.chunk = c ∧
        VectorStore.calculateSimilarity sqrtQ store.config q c.vector = .ok x.score := by
  have hk : (if topK = 0 then store.config.maxResults else topK) = topK :=
    if_neg (Nat.pos_iff_ne_zero.1 htop)
  simp only [VectorStore.search, hk] at h
  by_cases hemp : store.chunks.isEmpty
  · rw [if_pos hemp] at h
    cases h
    exact ⟨List.sorted_nil, Nat.zero_le _, by intro x hx; cases hx⟩
  · rw [if_neg hemp] at h
    simp only [Bind.bind, Except.bind] at h
    cases hcoll : VectorStore.collectResults sqrtQ store.config q store.chunks with
    | error e => rw [hcoll] at h; cases h
    | ok results =>
      rw [hcoll] at h
      cases h
      refine ⟨?_, ?_, ?_⟩
      · exact List.Pairwise.sublist (List.take_sublist _ _)
          (List.sorted_insertionSort VectorStore.scoreGe results)
      · exact le_trans (List.length_take_le _ _) (le_refl _)
      · intro x hx
        have hx2 : x ∈ results.insertionSort VectorStore.scoreGe :=
          List.mem_of_mem_take hx
        have hx3 : x ∈ results := (List.mem_insertionSort _).1 hx2
        obtain ⟨h1, _, _, c, hc, h4, h5⟩ :=
          collectResults_ok_mem sqrtQ store.config q store.chunks results hcoll x hx3
        exact ⟨h1, c, hc, h4, h5⟩

/-- C1 witness: the corrected theorem applied to `storeM`, query
`qvec1`, `topK = 5`. -/
theorem search_sorted_topK_threshold_witness :
    List.Sorted VectorStore.scoreGe [⟨chunkM1, 1, 0, none⟩, ⟨chunkM2, 1, 0, none⟩] ∧
    ([⟨chunkM1, 1, 0, none⟩, ⟨chunkM2, 1, 0, none⟩] : List SearchResult).length ≤ 5 ∧
    ∀ x ∈ ([⟨chunkM1, 1, 0, none⟩, ⟨chunkM2, 1, 0, none⟩] : List SearchResult),
      storeM.config.threshold ≤ x.score ∧
      ∃ c ∈ storeM.chunks, x.chunk = c ∧
        VectorStore.calculateSimilarity sqrtId storeM.config qvec1 c.vector = .ok x.score :=
  search_sorted_topK_threshold sqrtId storeM qvec1 5
    [⟨chunkM1, 1, 0, none⟩, ⟨chunkM2, 1, 0, none⟩] (by decide)
    (by norm_num [VectorStore.search, storeM, mCfg, chunkM1, chunkM2, qvec1, sqrtId,
      VectorStore.collectResults, VectorStore.calculateSimilarity,
      VectorMath.manhattanDistance, vGet, VectorStore.scoreGe,
      Bind.bind, Except.bind, Except.map, List.range_succ])

/-- C6 (code_bug): `src/types/index.ts` declares `SearchResult` with a
mandatory `relevance: 'high' | 'medium' | 'low'`, but the object
literal `VectorStore.search` pushes is only `{chunk, score, distance}`
— at runtime `relevance` is `undefined` for every result, never the
bucketed value the claim (and the code's own type declaration)
requires.  At the failing input — a store holding one chunk scoring 1
(≥ 0.8, so the claim requires `relevance = 'high'`) — the returned
result carries `distance = 1 - score` but no relevance at all. -/
theorem search_result_has_no_relevance :
    VectorStore.search sqrtId store1 qvec1 3 =
      .ok [{ chunk := chunkM1, score := 1, distance := 1 - 1, relevance := none }] := by
  norm_num [VectorStore.search, store1, mCfg, chunkM1, qvec1, sqrtId,
    VectorStore.collectResults, VectorStore.calculateSimilarity,
    VectorMath.manhattanDistance, vGet, VectorStore.scoreGe,
    Bind.bind, Except.bind, Except.map, List.range_succ]

/-- C10 (confirmed): `search(query, 0)` does not return an empty list —
JS `topK || maxResults` treats `0` as absent and falls back to the
configured `maxResults` default of 10, so it behaves exactly like
`search(query, 10)`; whenever some stored chunk's score meets the
threshold (and the scan completes without a thrown dimension
mismatch), the result list is non-empty. -/
theorem search_topK_zero_uses_maxResults (sqrtQ : ℚ → ℚ) (store : VectorStore)
    (q : Vec) (c : Chunk) (s : ℚ) (res : List SearchResult)
    (hmax : store.config.maxResults = 10)
    (hc : c ∈ store.chunks)
    (hcalc : VectorStore.calculateSimilarity sqrtQ store.config q c.vector = .ok s)
    (hthr : store.config.threshold ≤ s)
    (h : VectorStore.search sqrtQ store q 0 = .ok res) :
    res ≠ [] ∧
    VectorStore.search sqrtQ store q 0 = VectorStore.search sqrtQ store q 10 := by
  have hsame : VectorStore.search sqrtQ store q 0 =
      VectorStore.search sqrtQ store q 10 := by
    simp [VectorStore.search, hmax]
  refine ⟨?_, hsame⟩
  have hemp : store.chunks.isEmpty = false := by
    cases hl : store.chunks with
    | nil => rw [hl] at hc; cases hc
    | cons a l => simp [hl]
  simp only [VectorStore.search, hmax, if_pos rfl, hemp, Bool.false_eq_true,
    if_false, Bind.bind, Except.bind] at h
  cases hcoll : VectorStore.collectResults sqrtQ store.config q store.chunks with
  | error e => rw [hcoll] at h; cases h
  | ok results =>
    rw [hcoll] at h
    cases h
    have hne : results ≠ [] :=
      collectResults_ok_ne_nil sqrtQ store.config q store.chunks results hcoll hc hcalc hthr
    have hlen : 0 < results.length := List.length_pos.2 hne
    have : 0 < ((results.insertionSort VectorStore.scoreGe).take 10).length := by
      rw [List.length_take, List.length_insertionSort]
      omega
    exact List.ne_nil_of_length_pos this

/-- C10 witness: `store1` (default `maxResults = 10`, threshold 0)
holds one chunk scoring 1 against `qvec1`; `search(qvec1, 0)` returns
it. -/
theorem search_topK_zero_uses_maxResults_witness :
    ([{ chunk := chunkM1, score := 1, distance := 1 - 1, relevance := none }] :
        List SearchResult) ≠ [] ∧
    VectorStore.search sqrtId store1 qvec1 0 = VectorStore.search sqrtId store1 qvec1 10 :=
  search_topK_zero_uses_maxResults sqrtId store1 qvec1 chunkM1 1
    [{ chunk := chunkM1, score := 1, distance := 1 - 1, relevance := none }]
    rfl (by simp [store1, chunkM1])
    (by norm_num [VectorStore.calculateSimilarity, store1, mCfg, chunkM1, qvec1, sqrtId,
      VectorMath.manhattanDistance, vGet, Except.map, List.range_succ])
    (by norm_num [store1, mCfg])
    (by norm_num [VectorStore.search, store1, mCfg, chunkM1, qvec1, sqrtId,
      VectorStore.collectResults, VectorStore.calculateSimilarity,
      VectorMath.manhattanDistance, vGet, VectorStore.scoreGe,
      Bind.bind, Except.bind, Except.map, List.range_succ])

end VectorChunk

namespace VectorChunk

/-- The word loop of `fixedSizeChunking` only ever emits the trimmed
join of the accumulated words plus the word just pushed; if the
accumulator's join was previously below `chunkSize` (or empty) and
every remaining word is at most `M` long, every emitted chunk is at
most `chunkSize + M` long.  (Requires `overlap = 0`, so the
accumulator restarts empty after every emit.) -/
theorem fixedLoop_content_length_le (sqrtQ : ℚ → ℚ) (cfg : ChunkingConfig)
    (hov : cfg.overlap = 0) (M : ℕ) :
    ∀ (words : List Str), ∀ (cur : List Str) (idx : ℕ),
      (∀ w ∈ words, w.length ≤ M) →
      (cur = [] ∨ (joinSp cur).length < cfg.chunkSize) →
      ∀ c ∈ TextChunker.fixedLoop sqrtQ cfg words cur idx,
        c.content.length ≤ cfg.chunkSize + M := by
  intro words
  induction words with
  | nil =>
    intro cur idx _ _ c hc
    simp [TextChunker.fixedLoop] at hc
  | cons w rest ih =>
    intro cur idx hM hcur c hc
    cases rest with
    | nil =>
      simp only [TextChunker.fixedLoop] at hc
      split at hc
      · rcases List.mem_singleton.1 hc with rfl
        simp only [TextChunker.createChunk]
        exact le_trans (trimStr_length_le _)
          (joinSp_push_length_le cfg.chunkSize M cur w hcur
            (hM w (List.mem_cons_self ..)))
      · cases hc
    | cons x ws =>
      have hMrest : ∀ u ∈ x :: ws, u.length ≤ M := fun u hu =>
        hM u (List.mem_cons_of_mem _ hu)
      have hw : w.length ≤ M := hM w (List.mem_cons_self ..)
      simp only [TextChunker.fixedLoop, hov, Nat.lt_irrefl, if_false] at hc
      by_cases hemit : cfg.chunkSize ≤ (joinSp (cur ++ [w])).length
      · rw [if_pos hemit] at hc
        split at hc
        · rcases List.mem_cons.1 hc with rfl | hrec
          · simp only [TextChunker.createChunk]
            exact le_trans (trimStr_length_le _)
              (joinSp_push_length_le cfg.chunkSize M cur w hcur hw)
          · exact ih [] (idx + 1) hMrest (Or.inl rfl) c hrec
        · exact ih [] idx hMrest (Or.inl rfl) c hc
      · rw [if_neg hemit] at hc
        exact ih (cur ++ [w]) idx hMrest (Or.inr (Nat.lt_of_not_le hemit)) c hc

set_option maxRecDepth 100000 in
/-- C5 counterexample: with the fixed strategy, `chunkSize = 50`,
`overlap = 0` and `minChunkSize = 1`, the 200-character `text200`
(eighteen 10-character words plus a 2-character word) produces 4
chunks of lengths 54, 54, 54, 35 — the word loop emits only once the
joined length has *reached* `chunkSize`, so three chunks exceed 50
characters, contradicting "every emitted chunk's content length ≤
chunkSize" (and "4 chunks, each at most 50 characters"). -/
theorem fixed_overlap0_chunkSize_exceeded_cex :
    cfg50.strategy = .fixed ∧ cfg50.overlap = 0 ∧ cfg50.chunkSize = 50 ∧
    text200.length = 200 ∧
    (TextChunker.chunkText sqrtId cfg50 text200).map (fun c => c.content.length) =
      [54, 54, 54, 35] ∧
    ¬ ∀ c ∈ TextChunker.chunkText sqrtId cfg50 text200, c.content.length ≤ 50 := by
  decide

/-- C5 (corrected): with the fixed strategy and `overlap = 0`, every
chunk emitted by `chunkText` has content length at most `chunkSize +
M` where `M` is the length of the longest whitespace-delimited word —
a chunk is emitted the first time the joined length *reaches*
`chunkSize`, so it can overshoot by up to its final word (plus its
separator), as the counterexample's 54-character chunks (chunkSize 50,
10-character words) show. -/
theorem chunkText_fixed_overlap0_bound (sqrtQ : ℚ → ℚ) (cfg : ChunkingConfig)
    (text : Str) (hstrat : cfg.strategy = .fixed) (hov : cfg.overlap = 0) :
    ∀ c ∈ TextChunker.chunkText sqrtQ cfg text,
      c.content.length ≤ cfg.chunkSize + maxWordLen text := by
  intro c hc
  unfold TextChunker.chunkText at hc
  split at hc
  · cases hc
  · split at hc
    · split at hc
      · rcases List.mem_singleton.1 hc with rfl
        simp only [TextChunker.createChunk]
        calc (trimStr text).length ≤ text.length := trimStr_length_le _
          _ ≤ cfg.chunkSize := by omega
          _ ≤ cfg.chunkSize + maxWordLen text := Nat.le_add_right _ _
      · cases hc
    · rw [hstrat] at hc
      unfold TextChunker.fixedSizeChunking at hc
      exact fixedLoop_content_length_le sqrtQ cfg hov (maxWordLen text)
        (splitWs text) [] 0 (fun w hw => length_le_maxWordLen hw) (Or.inl rfl) c hc

/-- C5 witness: the corrected bound applied to `cfg50`/`text200`
(`chunkSize + maxWordLen = 50 + 10 = 60`; the actual lengths are 54,
54, 54, 35). -/
theorem chunkText_fixed_overlap0_bound_witness :
    ((TextChunker.chunkText sqrtId cfg50 text200).map (fun c => c.content.length)).all
      (fun n => n ≤ cfg50.chunkSize + maxWordLen text200) = true := by
  have h := chunkText_fixed_overlap0_bound sqrtId cfg50 text200 (by decide) (by decide)
  simp only [List.all_eq_true, List.mem_map]
  rintro n ⟨c, hc, rfl⟩
  simpa using h c hc

end VectorChunk

namespace VectorChunk

set_option maxRecDepth 100000 in
/-- C4 (code_bug): `TextChunker.createChunk` stores the placeholder
positions `startPosition = 0` (its own comment: "Would be calculated
in real implementation") and `endPosition = content.length` for every
chunk, so offsets do not locate the chunk in the source text: on
`textABCD` with `cfg10` the second chunk has content "dddd" but
positions (0, 4), and `text.slice(0, 4) = "aaaa" ≠ "dddd"`. -/
theorem chunk_positions_placeholder_cex :
    (TextChunker.chunkText sqrtId cfg10 textABCD).map
        (fun c => (c.content, c.startPosition, c.endPosition)) =
      [(("aaaa bbbb cccc").toList, 0, 14), (("dddd").toList, 0, 4)] ∧
    sliceStr textABCD 0 4 = ("aaaa").toList ∧
    ("aaaa").toList ≠ ("dddd").toList := by
  decide

set_option maxRecDepth 100000 in
/-- C2 (code_bug): materializing chunk 1 of `textABCD` through the
Lazy path does not reproduce the direct `TextChunker.chunkText` chunk
1: phase 1 records the placeholder offsets (0, content.length), so
`processChunkAtIndex` slices "aaaa" (a prefix of the whole text)
instead of "dddd", and its fingerprint has dimension 64 where
`TextChunker`'s has 128 — both content and vector differ. -/
theorem lazy_materialization_differs_cex :
    (LazyChunker.getChunk sqrtId cfg10 textABCD 1).map
        (fun c => (c.content, c.vector.dimension)) = some (("aaaa").toList, 64) ∧
    ((TextChunker.chunkText sqrtId cfg10 textABCD).get? 1).map
        (fun c => (c.content, c.vector.dimension)) = some (("dddd").toList, 128) ∧
    (some (("aaaa").toList, 64) : Option (Str × ℕ)) ≠ some (("dddd").toList, 128) := by
  decide

/-- One flush iteration on the buffer "." leaves the buffer "." again
(the semantic extraction rule's fixed point): splitting "." on
`/[.!?]+/` gives ["", ""], the loop accumulates the empty string, and
the buffer is rebuilt as "" joined by '.' plus the trailing '.'. -/
theorem extractChunk_semantic_dot_fixed_point :
    StreamingChunker.extractChunk semCfgS ['.'] = ([], ['.']) := by
  decide

/-- The flush loop never terminates once the buffer is ".": for every
fuel the fueled model returns `none`. -/
theorem processBufferFinal_dot_none (sqrtQ : ℚ → ℚ) :
    ∀ (fuel idx : ℕ),
      StreamingChunker.processBufferFinal sqrtQ semCfgS fuel ['.'] idx = none := by
  intro fuel
  induction fuel with
  | zero => intro idx; rfl
  | succ fuel ih =>
    intro idx
    simp only [StreamingChunker.processBufferFinal, extractChunk_semantic_dot_fixed_point]
    simp [ih]

/-- C7 (code_bug): the end-of-input flush does *not* terminate for the
semantic strategy.  With the default config and strategy 'semantic',
input "a" reaches `_flush` with buffer "a"; the first iteration
extracts "a" (too short to emit) and rebuilds the buffer as ".", and
from then on every iteration extracts "" and leaves the buffer "."
unchanged, so `processBuffer(true)` loops forever — the fueled model
returns `none` for every fuel. -/
theorem streaming_semantic_flush_diverges (sqrtQ : ℚ → ℚ) :
    ∀ (fuel idx : ℕ),
      StreamingChunker.processBufferFinal sqrtQ semCfgS fuel ['a'] idx = none := by
  intro fuel idx
  cases fuel with
  | zero => rfl
  | succ fuel =>
    have hext : StreamingChunker.extractChunk semCfgS ['a'] = (['a'], ['.']) := by decide
    simp only [StreamingChunker.processBufferFinal, hext]
    have hmin : ¬ (semCfgS.minChunkSize ≤ (['a'] : Str).length) := by decide
    simp [hmin, processBufferFinal_dot_none sqrtQ fuel]

end VectorChunk

namespace VectorChunk

/-- A crashed task anywhere in the outcome list rejects the whole
`Promise.all`. -/
theorem promiseAll_error_of_crashed :
    ∀ (os : List ParallelChunker.TaskOutcome),
      (∃ m, ParallelChunker.TaskOutcome.crashed m ∈ os) →
      ∃ e, ParallelChunker.promiseAll os = .error e := by
  intro os
  induction os with
  | nil => rintro ⟨m, hm⟩; cases hm
  | cons o os ih =>
    rintro ⟨m, hm⟩
    cases o with
    | crashed m0 =>
      exact ⟨m0, by simp [ParallelChunker.promiseAll,
        ParallelChunker.processChunkInWorker, Bind.bind, Except.bind]⟩
    | completed r =>
      have hm2 : ParallelChunker.TaskOutcome.crashed m ∈ os := by
        rcases List.mem_cons.1 hm with h | h
        · cases h
        · exact h
      obtain ⟨e, he⟩ := ih ⟨m, hm2⟩
      exact ⟨e, by simp [ParallelChunker.promiseAll,
        ParallelChunker.processChunkInWorker, Bind.bind, Except.bind, he]⟩

/-- When every task completed (no crash), `Promise.all` resolves with
the posted chunk lists — including `[]` for workers whose `chunkText`
threw. -/
theorem promiseAll_ok_of_completed :
    ∀ (os : List ParallelChunker.TaskOutcome),
      (∀ o ∈ os, ∃ r, o = .completed r) →
      ParallelChunker.promiseAll os = .ok (os.map ParallelChunker.postedOf) := by
  intro os
  induction os with
  | nil => intro _; rfl
  | cons o os ih =>
    intro h
    obtain ⟨r, rfl⟩ := h o (List.mem_cons_self ..)
    have htail := ih (fun o ho => h o (List.mem_cons_of_mem _ ho))
    simp [ParallelChunker.promiseAll, ParallelChunker.processChunkInWorker,
      Bind.bind, Except.bind, htail, ParallelChunker.postedOf]

/-- C3 counterexample: a worker whose segment task errors does *not*
fail the whole call.  The worker-side catch posts `[]`, the parent
resolves that promise normally, and the join returns a successfully
merged list that silently misses the failed worker's chunks: with
outcomes [ok [chunkP], error "boom"] the call resolves `.ok [chunkP]`
instead of failing. -/
theorem parallel_caught_error_not_fatal_cex :
    ParallelChunker.joinWorkers
        [.completed (.ok [chunkP]), .completed (.error boomMsg)] = .ok [chunkP] := by
  decide

/-- C3 (corrected): only a worker-level failure (an `error` event or
an abnormal nonzero exit before posting — `crashed`) is fatal to the
whole `chunkTextParallel` call; an error thrown inside a worker's
segment `chunkText` is caught in the worker thread, which posts an
empty chunk list, so the call resolves successfully with merged
results that omit that worker's chunks. -/
theorem parallel_join_crash_fatal_caught_swallowed
    (outcomes : List ParallelChunker.TaskOutcome) :
    ((∃ m, ParallelChunker.TaskOutcome.crashed m ∈ outcomes) →
      ∃ e, ParallelChunker.joinWorkers outcomes = .error e) ∧
    ((∀ o ∈ outcomes, ∃ r, o = .completed r) →
      ParallelChunker.joinWorkers outcomes =
        .ok (ParallelChunker.mergeChunkResults
          (outcomes.map ParallelChunker.postedOf))) := by
  constructor
  · intro h
    obtain ⟨e, he⟩ := promiseAll_error_of_crashed outcomes h
    exact ⟨e, by simp [ParallelChunker.joinWorkers, Bind.bind, Except.bind, he]⟩
  · intro h
    have := promiseAll_ok_of_completed outcomes h
    simp [ParallelChunker.joinWorkers, Bind.bind, Except.bind, this]

/-- C3 witness: the corrected theorem applied to a crashed singleton
(fatal) and to a completed pair containing an in-task error (resolved
with the error's chunks missing). -/
theorem parallel_join_crash_fatal_caught_swallowed_witness :
    (∃ e, ParallelChunker.joinWorkers [.crashed boomMsg] = .error e) ∧
    ParallelChunker.joinWorkers
        [.completed (.ok [chunkP]), .completed (.error boomMsg)] =
      .ok (ParallelChunker.mergeChunkResults
        ([.completed (.ok [chunkP]), .completed (.error boomMsg)].map
          ParallelChunker.postedOf)) :=
  ⟨(parallel_join_crash_fatal_caught_swallowed [.crashed boomMsg]).1
      ⟨boomMsg, List.mem_singleton.2 rfl⟩,
   (parallel_join_crash_fatal_caught_swallowed
        [.completed (.ok [chunkP]), .completed (.error boomMsg)]).2
      (by rintro o ho
          rcases List.mem_cons.1 ho with rfl | ho
          · exact ⟨.ok [chunkP], rfl⟩
          · rcases List.mem_cons.1 ho with rfl | ho
            · exact ⟨.error boomMsg, rfl⟩
            · cases ho)⟩

/-- Equal-dimension cosine similarity never throws. -/
theorem cosineSimilarity_ok_of_dim_eq (sqrtQ : ℚ → ℚ) (a b : Vec)
    (h : a.dimension = b.dimension) :
    ∃ s, VectorMath.cosineSimilarity sqrtQ a b = .ok s := by
  unfold VectorMath.cosineSimilarity
  rw [if_neg (by simp [h])]
  exact ⟨_, rfl⟩

/-- Under the cosine metric, one stored chunk whose vector dimension
differs from the query's makes the whole scoring loop throw the
dimension-mismatch error. -/
theorem collectResults_cosine_error_of_mismatch (sqrtQ : ℚ → ℚ)
    (cfg : VectorStoreConfig) (q : Vec) (hmet : cfg.similarityMetric = .cosine) :
    ∀ (cs : List Chunk),
      (∃ c ∈ cs, c.vector.dimension ≠ q.dimension) →
      VectorStore.collectResults sqrtQ cfg q cs = .error VectorMath.dimMismatch := by
  intro cs
  induction cs with
  | nil => rintro ⟨c, hc, _⟩; cases hc
  | cons c0 cs ih =>
    rintro ⟨c, hc, hdim⟩
    by_cases h0 : q.dimension = c0.vector.dimension
    · obtain ⟨s, hs⟩ := cosineSimilarity_ok_of_dim_eq sqrtQ q c0.vector h0
      have hcalc : VectorStore.calculateSimilarity sqrtQ cfg q c0.vector = .ok s := by
        unfold VectorStore.calculateSimilarity
        rw [hmet]
        exact hs
      have hc2 : c ∈ cs := by
        rcases List.mem_cons.1 hc with rfl | h2
        · exact absurd h0.symm hdim
        · exact h2
      have htail := ih ⟨c, hc2, hdim⟩
      simp [VectorStore.collectResults, Bind.bind, Except.bind, hcalc, htail]
    · have hcalc : VectorStore.calculateSimilarity sqrtQ cfg q c0.vector =
          .error VectorMath.dimMismatch := by
        unfold VectorStore.calculateSimilarity
        rw [hmet]
        unfold VectorMath.cosineSimilarity
        rw [if_pos (by simpa using h0)]
      simp [VectorStore.collectResults, Bind.bind, Except.bind, hcalc]

/-- C9 (confirmed): StreamingChunker and LazyChunker fingerprints have
dimension 64 while TextChunker fingerprints and the
`searchByText`/`textToVector` query vector have dimension 128;
consequently any store containing at least one streaming- or
lazy-produced chunk makes `searchByText` under the cosine metric throw
the dimension-mismatch error instead of returning results. -/
theorem fingerprint_dims_searchByText_mismatch (sqrtQ : ℚ → ℚ) :
    (∀ content : Str,
      (StreamingChunker.generateSimpleVector sqrtQ content).dimension = 64 ∧
      (LazyChunker.generateSimpleVector sqrtQ content).dimension = 64 ∧
      (TextChunker.generateSimpleVector sqrtQ content).dimension = 128 ∧
      (VectorStore.textToVector sqrtQ content).dimension = 128) ∧
    ∀ (store : VectorStore) (text : Str) (topK : ℕ),
      store.config.similarityMetric = .cosine →
      (∃ c ∈ store.chunks, ∃ content : Str,
        c.vector = StreamingChunker.generateSimpleVector sqrtQ content ∨
        c.vector = LazyChunker.generateSimpleVector sqrtQ content) →
      VectorStore.searchByText sqrtQ store text topK = .error VectorMath.dimMismatch := by
  constructor
  · intro content
    exact ⟨rfl, rfl, rfl, rfl⟩
  · rintro store text topK hmet ⟨c, hc, content, hvec⟩
    have hdim : c.vector.dimension ≠ (VectorStore.textToVector sqrtQ text).dimension := by
      rcases hvec with h | h <;> rw [h] <;> exact (by decide : (64 : ℕ) ≠ 128)
    have hcoll := collectResults_cosine_error_of_mismatch sqrtQ store.config
      (VectorStore.textToVector sqrtQ text) hmet store.chunks ⟨c, hc, hdim⟩
    have hemp : store.chunks.isEmpty = false := by
      cases hl : store.chunks with
      | nil => rw [hl] at hc; cases hc
      | cons a l => simp [hl]
    simp [VectorStore.searchByText, VectorStore.search, hemp,
      Bind.bind, Except.bind, hcoll]

/-- C9 witness: `store64` holds one streaming-fingerprinted chunk;
`searchByText` under cosine throws. -/
theorem fingerprint_dims_searchByText_mismatch_witness :
    VectorStore.searchByText sqrtId store64 ['b'] 5 = .error VectorMath.dimMismatch :=
  (fingerprint_dims_searchByText_mismatch sqrtId).2 store64 ['b'] 5 rfl
    ⟨chunk64, List.mem_singleton.2 rfl, ['a'], Or.inl rfl⟩

end VectorChunk
